import Mathlib

/-!
Verification development for the Ogg/Vorbis audio-info parser
(`src/eyed3/vorbis/audio.py` of redshodan/eyeD3).

The Python module is shallowly embedded below:
* a byte stream (a Python file object restricted to the operations the
  code uses: `tell`, `read(n)` with short reads at EOF, `seek`) is a list of
  byte values together with a read position;
* `OggPage.__init__` becomes `readPage`, `OggPage.parse` becomes
  `parsePages` (with the `try/finally` position restore and the post-scan
  `assert` statements made explicit);
* `VorbisAudioInfo.__init__` becomes `locate` (the header-locating loop),
  `decodeIdHeader` / `clamp0` / `bitrateEstimate` (identification-header
  decode), `commentLoop` (the comment-entry loop) and `buildFromPages` /
  `buildAudioInfo` (the whole constructor);
* Python exceptions become the `PyErr` error type: `VorbisException`
  carries its message string, and the built-in exception classes the code
  can raise (`struct.error`, `AssertionError`, `ValueError`,
  `UnicodeDecodeError`, `ZeroDivisionError`, `IndexError`) are separate
  constructors.
Machine integers are `Nat`/`Int`; signed fields of `struct.unpack` are
decoded two's-complement from their little-endian bytes.
-/

set_option maxRecDepth 8192

/-- Decidable equality of `Except` results, for evaluating the embedded
functions on concrete inputs. -/
instance {ε α : Type} [DecidableEq ε] [DecidableEq α] :
    DecidableEq (Except ε α) := fun a b =>
  match a, b with
  | .error x, .error y =>
      if h : x = y then .isTrue (by rw [h])
      else .isFalse (fun hc => h (Except.error.inj hc))
  | .ok x, .ok y =>
      if h : x = y then .isTrue (by rw [h])
      else .isFalse (fun hc => h (Except.ok.inj hc))
  | .error _, .ok _ => .isFalse (fun hc => Except.noConfusion hc)
  | .ok _, .error _ => .isFalse (fun hc => Except.noConfusion hc)

/-- Error values corresponding to the Python exceptions that
`OggPage.__init__`, `OggPage.parse` and `VorbisAudioInfo.__init__` can
raise.  `vorbisException` is the module's own `VorbisException` class,
with its message string. -/
inductive PyErr where
  | vorbisException (msg : String)
  | structError
  | assertionError
  | valueError
  | unicodeDecodeError
  | zeroDivisionError
  | indexError
deriving DecidableEq, Repr

/-- Little-endian byte-list to natural number (all `struct.unpack`
integer fields are little-endian, format prefix `<`). -/
def leNat : List Nat → Nat
  | [] => 0
  | b :: rest => b + 256 * leNat rest

/-- Unsigned 32-bit little-endian decode (`struct` format `I`). -/
def u32le (bs : List Nat) : Nat := leNat (bs.take 4)

/-- Signed 32-bit little-endian decode (`struct` format `i`):
two's complement. -/
def i32le (bs : List Nat) : Int :=
  let u := leNat (bs.take 4)
  if 2 ^ 31 ≤ u then (u : Int) - 2 ^ 32 else (u : Int)

/-- Signed 64-bit little-endian decode (`struct` format `q`):
two's complement. -/
def i64le (bs : List Nat) : Int :=
  let u := leNat (bs.take 8)
  if 2 ^ 63 ≤ u then (u : Int) - 2 ^ 64 else (u : Int)

/-- A seekable byte stream: the data of the Python file object and the
current read position (`file_obj.tell()`). -/
structure ByteStream where
  data : List Nat
  pos : Nat
deriving DecidableEq, Repr

/-- `file_obj.read n`: returns at most `n` bytes starting at the current
position (fewer at end of file — Python's short read) and advances the
position by the number of bytes actually returned. -/
def ByteStream.read (s : ByteStream) (n : Nat) : List Nat × ByteStream :=
  let bytes := (s.data.drop s.pos).take n
  (bytes, { s with pos := s.pos + bytes.length })

/-- `bytes.startswith`: Boolean test that `l` begins with `pre`. -/
def startsWith (pre l : List Nat) : Bool := l.take pre.length == pre

/-- The lacing loop of `OggPage.__init__` with its running accumulator
`count` made an explicit argument: `count += segment`; a segment value
below 255 closes a lace of the accumulated length and resets the
accumulator; a nonzero accumulator left at the end of the table is
emitted as a final lace. -/
def lacesGo : Nat → List Nat → List Nat
  | count, [] => if count ≠ 0 then [count] else []
  | count, seg :: rest =>
      if seg < 255 then (count + seg) :: lacesGo 0 rest
      else lacesGo (count + seg) rest

/-- Lace lengths derived from a segment table (`OggPage.__init__`,
lines 41–50). -/
def lacesFn (segments : List Nat) : List Nat := lacesGo 0 segments

/-- An Ogg page as built by `OggPage.__init__`: the header fields, the raw
segment table, the derived laces and the per-lace packet payloads. -/
structure Page where
  offset : Nat
  version : Nat
  type : Nat
  position : Int
  serial : Nat
  sequence : Nat
  csum : Int
  nsegments : Nat
  segments : List Nat
  laces : List Nat
  packets : List (List Nat)
deriving DecidableEq, Repr

/-- `OggPage.isContinued`: bit 0 of the type byte. -/
def Page.isContinued (p : Page) : Bool := p.type.testBit 0

/-- `OggPage.isFirst`: bit 1 of the type byte. -/
def Page.isFirst (p : Page) : Bool := p.type.testBit 1

/-- `OggPage.isLast`: bit 2 of the type byte. -/
def Page.isLast (p : Page) : Bool := p.type.testBit 2

/-- `OggPage.buffer`: the page payload, the concatenation of the packet
slices. -/
def Page.buffer (p : Page) : List Nat := p.packets.flatten

/-- The 4-byte page magic `b"OggS"`. -/
def oggMagic : List Nat := [79, 103, 103, 83]

/-- Reading the per-lace packet payloads (the final loop of
`OggPage.__init__`): one `file_obj.read lace` per lace. -/
def readPackets (s : ByteStream) : List Nat → List (List Nat) × ByteStream
  | [] => ([], s)
  | lace :: rest =>
      let r := s.read lace
      let r2 := readPackets r.2 rest
      (r.1 :: r2.1, r2.2)

/-- The body of `OggPage.__init__` after the magic and version checks
passed: unpack the remaining header fields from the 27 header bytes
`vhdr`, read the segment table (`nsegments` bytes), derive the laces and
read the packet payloads. -/
def readPageBody (offset : Nat) (vhdr : List Nat) (s1 : ByteStream) :
    Page × ByteStream :=
  let nsegments := vhdr.getD 26 0
  let r2 := s1.read nsegments
  let segments := r2.1
  let laces := lacesFn segments
  let r3 := readPackets r2.2 laces
  ({ offset := offset
     version := vhdr.getD 4 0
     type := vhdr.getD 5 0
     position := i64le ((vhdr.drop 6).take 8)
     serial := u32le ((vhdr.drop 14).take 4)
     sequence := u32le ((vhdr.drop 18).take 4)
     csum := i32le ((vhdr.drop 22).take 4)
     nsegments := nsegments
     segments := segments
     laces := laces
     packets := r3.1 }, r3.2)

/-- `OggPage.__init__`: read the 27-byte fixed header, unpack it
(`struct.unpack "<4sBBqIIiB"` — a short read makes the unpack fail with
`struct.error`), check the magic, then the version, then read the segment
table, derive the laces and read the packet payloads. -/
def readPage (s : ByteStream) : Except PyErr (Page × ByteStream) :=
  if (s.read 27).1.length = 27 then
    if (s.read 27).1.take 4 = oggMagic then
      if (s.read 27).1.getD 4 0 = 0 then
        .ok (readPageBody s.pos (s.read 27).1 (s.read 27).2)
      else .error (.vorbisException "Unknown ogg version: \x7bself.version\x7d")
    else .error (.vorbisException "Invalid ogg magic pattern")
  else .error .structError

theorem ByteStream.read_data (s : ByteStream) (n : Nat) :
    ((s.read n).2).data = s.data := rfl

theorem ByteStream.read_pos_ge (s : ByteStream) (n : Nat) :
    s.pos ≤ ((s.read n).2).pos := Nat.le_add_right _ _

theorem ByteStream.read_pos_le (s : ByteStream) (n : Nat)
    (h : s.pos ≤ s.data.length) : ((s.read n).2).pos ≤ s.data.length := by
  simp only [ByteStream.read, List.length_take, List.length_drop]
  omega

theorem readPackets_data (laces : List Nat) (s : ByteStream) :
    ((readPackets s laces).2).data = s.data := by
  induction laces generalizing s with
  | nil => rfl
  | cons lace rest ih => simpa [readPackets] using ih (s.read lace).2

theorem readPackets_pos_ge (laces : List Nat) (s : ByteStream) :
    s.pos ≤ ((readPackets s laces).2).pos := by
  induction laces generalizing s with
  | nil => exact Nat.le_refl _
  | cons lace rest ih =>
      exact Nat.le_trans (s.read_pos_ge lace) (ih (s.read lace).2)

theorem readPackets_pos_le (laces : List Nat) (s : ByteStream)
    (h : s.pos ≤ s.data.length) :
    ((readPackets s laces).2).pos ≤ s.data.length := by
  induction laces generalizing s with
  | nil => exact h
  | cons lace rest ih =>
      have h1 := s.read_pos_le lace h
      have h2 := ih (s.read lace).2 (by simpa [ByteStream.read_data] using h1)
      simpa [readPackets, ByteStream.read_data] using h2

/-- `readPageBody` preserves the underlying data and only moves the
position forward, never past the end of the data. -/
theorem readPageBody_stream (offset : Nat) (vhdr : List Nat)
    (s1 : ByteStream) :
    ((readPageBody offset vhdr s1).2).data = s1.data ∧
      s1.pos ≤ ((readPageBody offset vhdr s1).2).pos ∧
      (s1.pos ≤ s1.data.length →
        ((readPageBody offset vhdr s1).2).pos ≤ s1.data.length) := by
  unfold readPageBody
  refine ⟨?_, ?_, ?_⟩
  · rw [readPackets_data, ByteStream.read_data]
  · exact Nat.le_trans (s1.read_pos_ge _) (readPackets_pos_ge _ _)
  · intro hb
    have h1 := s1.read_pos_le (vhdr.getD 26 0) hb
    have h2 := readPackets_pos_le (lacesFn (s1.read (vhdr.getD 26 0)).1)
      ((s1.read (vhdr.getD 26 0)).2)
      (by simpa [ByteStream.read_data] using h1)
    simpa [readPackets_data, ByteStream.read_data] using h2

/-- A successful page read preserves the underlying data, advances the
position by at least the 27 header bytes, and never moves past the end of
the data. -/
theorem readPage_ok {s : ByteStream} {p : Page} {s' : ByteStream}
    (h : readPage s = .ok (p, s')) :
    s'.data = s.data ∧ s.pos + 27 ≤ s'.pos ∧ s'.pos ≤ s.data.length := by
  unfold readPage at h
  split at h
  next h27 =>
    split at h
    next =>
      split at h
      next =>
        have hs : (readPageBody s.pos (s.read 27).1 (s.read 27).2).2 = s' :=
          congrArg Prod.snd (Except.ok.inj h)
        subst hs
        have hlen : ((s.data.drop s.pos).take 27).length = 27 := h27
        have hle : s.pos + 27 ≤ s.data.length := by
          simp only [List.length_take, List.length_drop] at hlen; omega
        have hpos1 : ((s.read 27).2).pos = s.pos + 27 := by
          show s.pos + ((s.data.drop s.pos).take 27).length = s.pos + 27
          rw [hlen]
        have hd1 : ((s.read 27).2).data = s.data := rfl
        obtain ⟨hbd, hbge, hble⟩ :=
          readPageBody_stream s.pos (s.read 27).1 (s.read 27).2
        refine ⟨by rw [hbd, hd1], ?_, ?_⟩
        · rw [← hpos1]; exact hbge
        · have := hble (by rw [hd1, hpos1]; exact hle)
          rw [hd1] at this; exact this
      next => exact absurd h (by simp)
    next => exact absurd h (by simp)
  next => exact absurd h (by simp)

/-- The scanning loop of `OggPage.parse`, structured on a fuel argument
so that it computes by structural recursion.  Every successful page read
consumes at least 27 bytes of the stream, so with the fuel parseLoop
passes the zero-fuel branch is unreachable (`parseLoop_eq` below proves
the loop equation of the Python `while True` loop without any fuel
condition). -/
def parseLoopFuel : Nat → ByteStream → List Page → Except PyErr (List Page)
  | 0, _, _ => .error .assertionError
  | fuel + 1, s, acc =>
      match readPage s with
      | .error e => .error e
      | .ok (page, s') =>
          if page.isLast then .ok (acc ++ [page])
          else parseLoopFuel fuel s' (acc ++ [page])

/-- The scanning loop of `OggPage.parse`: parse pages and append until a
page with the "last" flag is seen; a raised exception propagates. -/
def parseLoop (s : ByteStream) (acc : List Page) : Except PyErr (List Page) :=
  parseLoopFuel (s.data.length + 1) s acc

/-- Any two sufficient fuels give the same result, so `parseLoop` does
not depend on its fuel choice. -/
theorem parseLoopFuel_congr :
    ∀ (f₁ f₂ : Nat) (s : ByteStream) (acc : List Page),
      s.data.length - s.pos < f₁ → s.data.length - s.pos < f₂ →
      parseLoopFuel f₁ s acc = parseLoopFuel f₂ s acc := by
  intro f₁
  induction f₁ with
  | zero => intro f₂ s acc h₁; omega
  | succ f₁ ih =>
    intro f₂ s acc h₁ h₂
    cases f₂ with
    | zero => omega
    | succ f₂ =>
      simp only [parseLoopFuel]
      cases hr : readPage s with
      | error e => rfl
      | ok ps =>
        obtain ⟨page, s'⟩ := ps
        by_cases hl : page.isLast
        · simp [hl]
        · obtain ⟨hd, hge, hle⟩ := readPage_ok hr
          have hlen : s'.data.length = s.data.length := by rw [hd]
          simp only [hl, if_neg, Bool.false_eq_true, if_false]
          exact ih f₂ s' (acc ++ [page]) (by omega) (by omega)

/-- The loop equation of the `while True` loop of `OggPage.parse`. -/
theorem parseLoop_eq (s : ByteStream) (acc : List Page) :
    parseLoop s acc =
      match readPage s with
      | .error e => .error e
      | .ok (page, s') =>
          if page.isLast then .ok (acc ++ [page])
          else parseLoop s' (acc ++ [page]) := by
  show parseLoopFuel (s.data.length + 1) s acc = _
  have hstep : parseLoopFuel (s.data.length + 1) s acc =
      match readPage s with
      | .error e => .error e
      | .ok (page, s') =>
          if page.isLast then .ok (acc ++ [page])
          else parseLoopFuel s.data.length s' (acc ++ [page]) := rfl
  rw [hstep]
  cases hr : readPage s with
  | error e => rfl
  | ok ps =>
    obtain ⟨page, s'⟩ := ps
    by_cases hl : page.isLast
    · simp [hl]
    · obtain ⟨hd, hge, hle⟩ := readPage_ok hr
      have hlen : s'.data.length = s.data.length := by rw [hd]
      simp only [hl, Bool.false_eq_true, if_false]
      exact parseLoopFuel_congr _ _ s' (acc ++ [page]) (by omega) (by omega)

/-- The post-scan assertion block of `OggPage.parse` on a nonempty page
list `p0 :: rest`: the head must be flagged "first" and neither
"continued" nor "last"; when more than one page was read, the final page
must not be flagged "first" and must be flagged "last". -/
def scanChecks (p0 : Page) (rest : List Page) : Bool :=
  p0.isFirst && !p0.isContinued && !p0.isLast &&
    (rest.isEmpty || (!(rest.getLastD p0).isFirst && (rest.getLastD p0).isLast))

/-- `OggPage.parse`: record the start position, run the scanning loop,
restore the position (the `finally` clause runs on success and on every
exception), then run the assertion block.  The result pairs the parse
outcome with the final state of the stream. -/
def parsePages (s : ByteStream) : Except PyErr (List Page) × ByteStream :=
  let start := s.pos
  let res := parseLoop s []
  let sFin : ByteStream := { s with pos := start }
  match res with
  | .error e => (.error e, sFin)
  | .ok [] => (.error .indexError, sFin)
  | .ok (p0 :: rest) =>
      if scanChecks p0 rest then (.ok (p0 :: rest), sFin)
      else (.error .assertionError, sFin)

/-- Payload marker of the Vorbis identification header:
byte 1 followed by `b"vorbis"`. -/
def idMagic : List Nat := [1, 118, 111, 114, 98, 105, 115]

/-- Payload marker of the Vorbis comment header:
byte 3 followed by `b"vorbis"`. -/
def cmtMagic : List Nat := [3, 118, 111, 114, 98, 105, 115]

/-- One iteration of the header-locating loop of
`VorbisAudioInfo.__init__` (lines 112–118).  The state is
`(id_page, cmt_page, last_page)`.  A payload starting with the
identification marker overwrites `id_page`; otherwise (`elif`) a payload
starting with the comment marker overwrites `cmt_page`; then, if an
identification page has been seen (including this very page), a page
sharing its serial and flagged "last" overwrites `last_page`. -/
def locateStep (st : Option Page × Option Page × Option Page) (page : Page) :
    Option Page × Option Page × Option Page :=
  let idp := if startsWith idMagic page.buffer then some page else st.1
  let cmtp :=
    if !startsWith idMagic page.buffer && startsWith cmtMagic page.buffer
    then some page else st.2.1
  let lastp :=
    match idp with
    | some ip =>
        if page.serial == ip.serial && page.isLast then some page else st.2.2
    | none => st.2.2
  (idp, cmtp, lastp)

/-- The header-locating loop over the whole page list. -/
def locate (pages : List Page) : Option Page × Option Page × Option Page :=
  pages.foldl locateStep (none, none, none)

/-- Clamping of a decoded bitrate field:
`self.x_bitrate = max(0, self.x_bitrate)`. -/
def clamp0 (x : Int) : Int := max 0 x

/-- The bitrate cascade of `VorbisAudioInfo.__init__` (lines 133–140),
applied to the already-clamped max/nominal/min bitrates. -/
def bitrateEstimate (maxB nomB minB : Int) : Int :=
  if nomB = 0 then (maxB + minB) / 2
  else if maxB ≠ 0 ∧ maxB < nomB then maxB
  else if minB > nomB then minB
  else nomB

/-- `struct.unpack("<B4i", id_page.buffer[11:28])`: the channel count and
the four signed 32-bit fields (sample rate, max, nominal and min
bitrate) of the identification header; `struct.error` if the slice does
not hold exactly 17 bytes. -/
def decodeIdHeader (buf : List Nat) : Except PyErr (Nat × Int × Int × Int × Int) :=
  let s := (buf.drop 11).take 17
  if s.length = 17 then
    .ok (s.getD 0 0,
         i32le ((s.drop 1).take 4),
         i32le ((s.drop 5).take 4),
         i32le ((s.drop 9).take 4),
         i32le ((s.drop 13).take 4))
  else .error .structError

/-- Is `c` a UTF-8 continuation byte (`0x80–0xBF`)? -/
def utf8Cont (c : Nat) : Bool := 128 ≤ c && c < 192

/-- Strict UTF-8 validity as enforced by Python's `bytes.decode("utf-8")`:
rejects bare continuation bytes, overlong encodings, surrogate code
points and code points above `U+10FFFF`. -/
def utf8Valid : List Nat → Bool
  | [] => true
  | b :: rest =>
    if b < 128 then utf8Valid rest
    else if b < 194 then false
    else if b < 224 then
      match rest with
      | c :: rest2 => utf8Cont c && utf8Valid rest2
      | [] => false
    else if b < 240 then
      match rest with
      | c :: d :: rest3 =>
          (if b = 224 then 160 ≤ c && c < 192
           else if b = 237 then 128 ≤ c && c < 160
           else utf8Cont c) && utf8Cont d && utf8Valid rest3
      | _ => false
    else if b < 245 then
      match rest with
      | c :: d :: e :: rest4 =>
          (if b = 240 then 144 ≤ c && c < 192
           else if b = 244 then 128 ≤ c && c < 144
           else utf8Cont c) && utf8Cont d && utf8Cont e && utf8Valid rest4
      | _ => false
    else false

/-- `chunk.split(b"=", 1)` followed by the two-target unpacking
`name, value = …`: split at the first `=` byte (61); `none` models the
`ValueError` raised when no `=` is present. -/
def splitEq : List Nat → Option (List Nat × List Nat)
  | [] => none
  | b :: rest =>
      if b = 61 then some ([], rest)
      else (splitEq rest).map (fun nv => (b :: nv.1, nv.2))

/-- The comment table `self._tag._vorbis_comments`: an insertion-ordered
key/value map (keys and values are the decoded byte strings).  Assigning
to an existing key overwrites its value in place, as for a Python dict;
a new key is appended. -/
abbrev CTable := List (List Nat × List Nat)

/-- Python dict assignment `d[name] = value` on the comment table. -/
def ctInsert (t : CTable) (k v : List Nat) : CTable :=
  if (List.any t (fun e => e.1 == k)) then
    List.map (fun e => if e.1 == k then (k, v) else e) t
  else t ++ [(k, v)]

/-- Python dict lookup on the comment table. -/
def ctFind (t : CTable) (k : List Nat) : Option (List Nat) :=
  (List.find? (fun e => e.1 == k) t).map (fun e => e.2)

/-- The comment-entry loop of `VorbisAudioInfo.__init__` (lines
153–158), over the comment page payload `cb`.  Each iteration unpacks a
4-byte little-endian entry length at `off` (`struct.error` if fewer than
4 bytes remain), slices `length` bytes (a slice past the payload end is
silently truncated), splits at the first `=` (`ValueError` if absent),
decodes both sides as UTF-8 (`UnicodeDecodeError` if invalid) and
assigns into the comment table.  The result is the table as mutated so
far together with the error, if any, that aborted the loop. -/
def commentLoop (cb : List Nat) : Nat → Nat → CTable → CTable × Option PyErr
  | 0, _, t => (t, none)
  | count + 1, off, t =>
    let lenBytes := (cb.drop off).take 4
    if lenBytes.length = 4 then
      let len := u32le lenBytes
      let chunk := (cb.drop (off + 4)).take len
      match splitEq chunk with
      | none => (t, some .valueError)
      | some nv =>
          if utf8Valid nv.1 && utf8Valid nv.2 then
            commentLoop cb count (off + 4 + len) (ctInsert t nv.1 nv.2)
          else (t, some .unicodeDecodeError)
    else (t, some .structError)

/-- The decoded audio properties of `VorbisAudioInfo` (the fields the
constructor sets, with the duration a rational instead of a float). -/
structure AudioInfo where
  channels : Nat
  sample_rate : Int
  max_bitrate : Int
  nominal_bitrate : Int
  min_bitrate : Int
  bitrate : Int
  bit_rate : Int × Int
  time_secs : Rat
  vendor_len : Nat
  vendor : List Nat
  ncomments : Nat
deriving DecidableEq, Repr

/-- The body of `VorbisAudioInfo.__init__` after `OggPage.parse`
returned the page list: locate the three header pages (raising
`VorbisException` if any is missing), decode the identification header,
clamp the bitrates, run the bitrate cascade, compute the duration
(`ZeroDivisionError` when the sample rate is 0), then decode the comment
header into the comment table.  The second component is the comment
table as populated when the constructor returned or raised. -/
def buildFromPages (pages : List Page) : Except PyErr AudioInfo × CTable :=
  match locate pages with
  | (some idp, some cmtp, some lastp) =>
    match decodeIdHeader idp.buffer with
    | .error e => (.error e, [])
    | .ok (channels, sample_rate, rawMax, rawNom, rawMin) =>
      let maxB := clamp0 rawMax
      let minB := clamp0 rawMin
      let nomB := clamp0 rawNom
      let bitrate := bitrateEstimate maxB nomB minB
      let bit_rate : Int × Int := (if maxB ≠ 0 then maxB else 0, bitrate)
      if sample_rate = 0 then (.error .zeroDivisionError, [])
      else
        let time_secs : Rat := (lastp.position : Rat) / (sample_rate : Rat)
        let cb := cmtp.buffer
        let vlBytes := (cb.drop 7).take 4
        if vlBytes.length = 4 then
          let vendor_len := u32le vlBytes
          let vendor := (cb.drop 11).take vendor_len
          if utf8Valid vendor then
            let off := 11 + vendor_len
            let ncBytes := (cb.drop off).take 4
            if ncBytes.length = 4 then
              let ncomments := u32le ncBytes
              match commentLoop cb ncomments (off + 4) [] with
              | (t, some e) => (.error e, t)
              | (t, none) =>
                  (.ok { channels := channels
                         sample_rate := sample_rate
                         max_bitrate := maxB
                         nominal_bitrate := nomB
                         min_bitrate := minB
                         bitrate := bitrate
                         bit_rate := bit_rate
                         time_secs := time_secs
                         vendor_len := vendor_len
                         vendor := vendor
                         ncomments := ncomments }, t)
            else (.error .structError, [])
          else (.error .unicodeDecodeError, [])
        else (.error .structError, [])
  | _ => (.error (.vorbisException "Couldn't find Vorbis headers"), [])

/-- `VorbisAudioInfo.__init__` from the byte stream: `OggPage.parse`
followed by `buildFromPages`.  The result carries the constructor
outcome, the comment table and the final stream state. -/
def buildAudioInfo (s : ByteStream) :
    Except PyErr AudioInfo × CTable × ByteStream :=
  match parsePages s with
  | (.error e, s') => (.error e, [], s')
  | (.ok pages, s') =>
      let r := buildFromPages pages
      (r.1, r.2, s')

/-! ### Concrete test fixtures -/

/-- 4-byte little-endian encoding of an unsigned 32-bit value. -/
def le4 (n : Nat) : List Nat :=
  [n % 256, n / 256 % 256, n / 65536 % 256, n / 16777216 % 256]

/-- 8-byte little-endian encoding of an unsigned 64-bit value. -/
def le8 (n : Nat) : List Nat := le4 (n % 4294967296) ++ le4 (n / 4294967296)

/-- Serialized bytes of one Ogg page with a single-segment table holding
the whole payload (payloads of fewer than 255 bytes only). -/
def mkPageBytes (ptype granule serial seq : Nat) (payload : List Nat) :
    List Nat :=
  oggMagic ++ [0, ptype] ++ le8 granule ++ le4 serial ++ le4 seq ++ le4 0 ++
    [1, payload.length] ++ payload

/-- Identification-header payload: marker, 4 filler bytes, channel count
2, then sample rate, max 128000, nominal 96000, min 64000. -/
def idPayload (sr : Nat) : List Nat :=
  idMagic ++ [0, 0, 0, 0] ++ [2] ++ le4 sr ++ le4 128000 ++ le4 96000 ++
    le4 64000

/-- Comment-header payload: marker, empty vendor string, zero entries. -/
def cmtPayload : List Nat := cmtMagic ++ le4 0 ++ le4 0

/-- A minimal well-formed stream: identification page, comment page and
an empty terminal page (serial 1, granule position 441000). -/
def goodStream : ByteStream :=
  ⟨mkPageBytes 2 0 1 0 (idPayload 44100) ++ mkPageBytes 0 0 1 1 cmtPayload ++
    mkPageBytes 4 441000 1 2 [], 0⟩

/-- The same stream with sample rate 0 in the identification header. -/
def zeroRateStream : ByteStream :=
  ⟨mkPageBytes 2 0 1 0 (idPayload 0) ++ mkPageBytes 0 0 1 1 cmtPayload ++
    mkPageBytes 4 441000 1 2 [], 0⟩

/-- A stream with an identification page and a terminal page but no
comment page. -/
def noCmtStream : ByteStream :=
  ⟨mkPageBytes 2 0 1 0 (idPayload 44100) ++ mkPageBytes 4 441000 1 1 [], 0⟩

/-! ### Lacing (claims C5 and C10) -/

/-- Modelled from the spec's lacing description (§3): split the segment
table into runs — every byte below 255 ends a run (the terminator is
part of its run), and a block of 255-bytes still open at the table end
forms a final run.  A lace is the sum of a run. -/
def splitRuns : List Nat → List (List Nat)
  | [] => []
  | b :: rest =>
      if b < 255 then [b] :: splitRuns rest
      else
        match splitRuns rest with
        | [] => [[b]]
        | r :: rs => (b :: r) :: rs

theorem lacesGo_splitRuns (t : List Nat) :
    ∀ count, lacesGo count t =
      match splitRuns t with
      | [] => if count ≠ 0 then [count] else []
      | r :: rs => (count + r.sum) :: rs.map List.sum := by
  induction t with
  | nil => intro count; rfl
  | cons b rest ih =>
    intro count
    by_cases hb : b < 255
    · simp only [lacesGo, if_pos hb, splitRuns, ih 0]
      cases hr : splitRuns rest with
      | nil => simp [hr]
      | cons r rs => simp [hr]
    · simp only [lacesGo, if_neg hb, splitRuns, ih (count + b)]
      cases hr : splitRuns rest with
      | nil =>
        have hz : count + b ≠ 0 := by omega
        simp [hr, hz]
      | cons r rs => simp [hr, Nat.add_assoc]

/-- **C5.** For every segment table, the lace list the code derives is
exactly the spec's description: runs of consecutive bytes, each run
terminated by a value below 255 (or still open at table end), produce
one lace each, of the accumulated sum; in particular `[255, 255, 10]`
gives the single lace `[520]` and `[255]` the single trailing lace
`[255]`. -/
theorem c5_lace_derivation :
    (∀ t, lacesFn t = (splitRuns t).map List.sum) ∧
      lacesFn [255, 255, 10] = [520] ∧ lacesFn [255] = [255] := by
  refine ⟨fun t => ?_, by decide, by decide⟩
  rw [lacesFn, lacesGo_splitRuns t 0]
  cases hr : splitRuns t with
  | nil => simp
  | cons r rs => simp

theorem lacesGo_sum (t : List Nat) :
    ∀ count, (lacesGo count t).sum = count + t.sum := by
  induction t with
  | nil =>
    intro count
    by_cases h : count = 0 <;> simp [lacesGo, h]
  | cons b rest ih =>
    intro count
    by_cases hb : b < 255
    · simp [lacesGo, hb, ih 0]; omega
    · simp [lacesGo, hb, ih (count + b)]; omega

/-- **C10.** The sum of the derived lace lengths equals the sum of the
segment table's byte values, so the payload bytes requested for the
page's packets (one `read lace` per lace) total exactly the payload size
the segment table declares. -/
theorem c10_lace_sum_eq_segment_sum : ∀ t, (lacesFn t).sum = t.sum := by
  intro t
  simpa using lacesGo_sum t 0

/-! ### Position restore (claim C8) -/

/-- **C8.** On success and on every failure exit, `OggPage.parse` leaves
the stream exactly as found: the `finally` clause restores the recorded
position (the assertions run after it), so the stream returned — also by
the whole `VorbisAudioInfo` constructor, which never reads the stream
again after the scan — equals the input stream. -/
theorem c8_stream_position_restored :
    ∀ s : ByteStream, (parsePages s).2 = s ∧ (buildAudioInfo s).2.2 = s := by
  intro s
  have h1 : (parsePages s).2 = s := by
    simp only [parsePages]
    split
    · rfl
    · rfl
    · split <;> rfl
  have h2 : (buildAudioInfo s).2.2 = (parsePages s).2 := by
    simp only [buildAudioInfo]
    split
    next e s' heq => simp [heq]
    next pages s' heq => simp [heq]
  exact ⟨h1, h2.trans h1⟩

/-! ### Post-scan invariants (claim C9) -/

/-- **C9.** Whenever `OggPage.parse` returns successfully, the asserted
post-scan invariants hold of the returned pages: the first page has the
"first" flag and neither "continued" nor "last"; with more than one
page, the final page lacks "first" and has "last".  Conversely the
invariants are enforced: a scan whose loop succeeds but whose pages
violate them exits with `AssertionError`. -/
theorem c9_post_scan_invariants :
    (∀ (s : ByteStream) (p0 : Page) (rest : List Page),
        (parsePages s).1 = .ok (p0 :: rest) →
        p0.isFirst = true ∧ p0.isContinued = false ∧ p0.isLast = false ∧
          (rest ≠ [] →
            (rest.getLastD p0).isFirst = false ∧
              (rest.getLastD p0).isLast = true)) ∧
    (∀ (s : ByteStream) (p0 : Page) (rest : List Page),
        parseLoop s [] = .ok (p0 :: rest) → scanChecks p0 rest = false →
        (parsePages s).1 = .error .assertionError) := by
  constructor
  · intro s p0 rest h
    simp only [parsePages] at h
    split at h
    · exact absurd h (by simp)
    · exact absurd h (by simp)
    · split at h
      next q0 qrest _ hc =>
        obtain ⟨rfl, rfl⟩ := List.cons.inj (Except.ok.inj h)
        simp only [scanChecks, Bool.and_eq_true, Bool.not_eq_true',
          Bool.or_eq_true] at hc
        obtain ⟨⟨⟨hf, hcont⟩, hlast⟩, htail⟩ := hc
        refine ⟨hf, hcont, hlast, fun hne => ?_⟩
        cases htail with
        | inl hemp => exact absurd (List.isEmpty_iff.mp hemp) hne
        | inr hlp => exact ⟨hlp.1, hlp.2⟩
      next => exact absurd h (by simp)
  · intro s p0 rest hloop hchecks
    simp only [parsePages, hloop, hchecks]
    simp

/-- A two-page stream (a "first" page then a "last" page, both with
empty payload) on which the scan succeeds. -/
def twoPageStream : ByteStream :=
  ⟨mkPageBytes 2 0 1 0 [] ++ mkPageBytes 4 0 1 1 [], 0⟩

/-- The first page `twoPageStream` parses to. -/
def twoPage1 : Page := ⟨0, 0, 2, 0, 1, 0, 0, 1, [0], [0], [[]]⟩

/-- The second page `twoPageStream` parses to. -/
def twoPage2 : Page := ⟨28, 0, 4, 0, 1, 1, 0, 1, [0], [0], [[]]⟩

/-- A single page whose type byte sets both "first" and "last",
violating the head assertions. -/
def badFlagsStream : ByteStream := ⟨mkPageBytes 6 0 1 0 [], 0⟩

/-- The page `badFlagsStream` parses to. -/
def badFlagsPage : Page := ⟨0, 0, 6, 0, 1, 0, 0, 1, [0], [0], [[]]⟩

/-- Witness for C9: both directions applied to concrete streams. -/
theorem c9_witness :
    (twoPage1.isFirst = true ∧ twoPage1.isContinued = false ∧
      twoPage1.isLast = false ∧
      ([twoPage2] ≠ ([] : List Page) →
        (([twoPage2] : List Page).getLastD twoPage1).isFirst = false ∧
          (([twoPage2] : List Page).getLastD twoPage1).isLast = true)) ∧
    (parsePages badFlagsStream).1 = .error .assertionError :=
  ⟨c9_post_scan_invariants.1 twoPageStream twoPage1 [twoPage2] (by decide),
   c9_post_scan_invariants.2 badFlagsStream badFlagsPage [] (by decide)
     (by decide)⟩

/-! ### Magic and version checks (claim C6) -/

/-- **C6.** Whenever the 27 header bytes are available at a page
boundary, a 4-byte magic other than `b"OggS"` makes `OggPage.__init__`
raise the magic `VorbisException` — uniformly in all the other header
bytes, i.e. before any header field influences the outcome — and, with
a good magic, a version byte other than 0 raises the version
`VorbisException`. -/
theorem c6_magic_and_version_errors :
    (∀ s : ByteStream, (s.read 27).1.length = 27 →
        (s.read 27).1.take 4 ≠ oggMagic →
        readPage s = .error (.vorbisException "Invalid ogg magic pattern")) ∧
    (∀ s : ByteStream, (s.read 27).1.length = 27 →
        (s.read 27).1.take 4 = oggMagic → (s.read 27).1.getD 4 0 ≠ 0 →
        readPage s =
          .error (.vorbisException
            "Unknown ogg version: \x7bself.version\x7d")) := by
  constructor
  · intro s h27 hm
    unfold readPage
    rw [if_pos h27, if_neg hm]
  · intro s h27 hm hv
    unfold readPage
    rw [if_pos h27, if_pos hm, if_neg hv]

/-- 27 zero bytes: a full header with a wrong magic. -/
def badMagicStream : ByteStream := ⟨List.replicate 27 0, 0⟩

/-- A good magic followed by version byte 9. -/
def badVersionStream : ByteStream :=
  ⟨oggMagic ++ 9 :: List.replicate 22 0, 0⟩

/-- Witness for C6: both error paths on concrete streams. -/
theorem c6_witness :
    readPage badMagicStream =
        .error (.vorbisException "Invalid ogg magic pattern") ∧
      readPage badVersionStream =
        .error (.vorbisException "Unknown ogg version: \x7bself.version\x7d") :=
  ⟨c6_magic_and_version_errors.1 badMagicStream (by decide) (by decide),
   c6_magic_and_version_errors.2 badVersionStream (by decide) (by decide)
     (by decide)⟩

/-! ### Zero sample rate (claim C2) -/

/-- **C2 (code-bug evaluation).** On a well-formed stream whose
identification header carries sample rate 0, `VorbisAudioInfo.__init__`
reaches and executes the duration division, which raises
`ZeroDivisionError` — not the `FormatError` rejection the spec
mandates before the divide. -/
theorem c2_zero_sample_rate_divides :
    (buildAudioInfo zeroRateStream).1 = .error .zeroDivisionError := by
  decide

/-! ### Missing headers (claim C7) -/

theorem decodeIdHeader_error {buf : List Nat} {e : PyErr}
    (h : decodeIdHeader buf = .error e) : e = .structError := by
  simp only [decodeIdHeader] at h
  split at h
  · exact absurd h (by simp)
  · exact (Except.error.inj h).symm

theorem commentLoop_error_shape (cb : List Nat) :
    ∀ (count off : Nat) (t : CTable) (e : PyErr),
      (commentLoop cb count off t).2 = some e →
      e = .structError ∨ e = .valueError ∨ e = .unicodeDecodeError := by
  intro count
  induction count with
  | zero => intro off t e h; exact absurd h (by simp [commentLoop])
  | succ n ih =>
    intro off t e h
    simp only [commentLoop] at h
    split at h
    · split at h
      · exact Or.inr (Or.inl (Option.some.inj h).symm)
      · split at h
        · exact ih _ _ _ h
        · exact Or.inr (Or.inr (Option.some.inj h).symm)
    · exact Or.inl (Option.some.inj h).symm

/-- **C7.** The constructor fails with the missing-header
`VorbisException` exactly when, after the full scan, at least one of the
three tracked pages is absent: if any of the locator's three results is
`none` the constructor raises it, and if all three are present no
missing-header `VorbisException` can be raised; a concrete stream with
an identification page but no comment page produces it and no
`AudioInfo`. -/
theorem c7_missing_header_iff :
    (∀ pages : List Page,
        ((locate pages).1 = none ∨ (locate pages).2.1 = none ∨
            (locate pages).2.2 = none) →
        (buildFromPages pages).1 =
          .error (.vorbisException "Couldn't find Vorbis headers")) ∧
    (∀ pages : List Page,
        (locate pages).1 ≠ none → (locate pages).2.1 ≠ none →
        (locate pages).2.2 ≠ none →
        (buildFromPages pages).1 ≠
          .error (.vorbisException "Couldn't find Vorbis headers")) ∧
    (buildAudioInfo noCmtStream).1 =
      .error (.vorbisException "Couldn't find Vorbis headers") := by
  refine ⟨?_, ?_, by decide⟩
  · intro pages h
    unfold buildFromPages
    rcases hl : locate pages with ⟨idp, st⟩
    rcases st with ⟨cmtp, lastp⟩
    rw [hl] at h
    cases idp with
    | none => rfl
    | some ip =>
      cases cmtp with
      | none => rfl
      | some cp =>
        cases lastp with
        | none => rfl
        | some lp => simp at h
  · intro pages h1 h2 h3 hc
    rcases hl : locate pages with ⟨idp, st⟩
    rcases st with ⟨cmtp, lastp⟩
    rw [hl] at h1 h2 h3
    cases idp with
    | none => exact h1 rfl
    | some ip =>
    cases cmtp with
    | none => exact h2 rfl
    | some cp =>
    cases lastp with
    | none => exact h3 rfl
    | some lp =>
    unfold buildFromPages at hc
    rw [hl] at hc
    split at hc
    next a b c heq =>
      simp only [Prod.mk.injEq, Option.some.injEq] at heq
      obtain ⟨rfl, rfl, rfl⟩ := heq
      split at hc
      next e heq2 =>
        rw [decodeIdHeader_error heq2] at hc
        exact PyErr.noConfusion (Except.error.inj hc)
      next vals heq2 =>
        split at hc
        next => exact PyErr.noConfusion (Except.error.inj hc)
        next =>
          dsimp only at hc
          split at hc
          next =>
            split at hc
            next =>
              split at hc
              next =>
                split at hc
                next t e heq3 =>
                  rcases commentLoop_error_shape _ _ _ _ _
                      (by rw [heq3]) with h' | h' | h' <;>
                    (rw [h'] at hc;
                      exact PyErr.noConfusion (Except.error.inj hc))
                next t heq3 => exact Except.noConfusion hc
              next => exact PyErr.noConfusion (Except.error.inj hc)
            next => exact PyErr.noConfusion (Except.error.inj hc)
          next => exact PyErr.noConfusion (Except.error.inj hc)
    next himp => exact (himp ip cp lp rfl).elim

/-- The identification page of `goodStream` as parsed. -/
def idPageG : Page := ⟨0, 0, 2, 0, 1, 0, 0, 1, [28], [28], [idPayload 44100]⟩

/-- The comment page of `goodStream` as parsed. -/
def cmtPageG : Page := ⟨56, 0, 0, 0, 1, 1, 0, 1, [15], [15], [cmtPayload]⟩

/-- The terminal page of `goodStream` as parsed. -/
def lastPageG : Page := ⟨99, 0, 4, 441000, 1, 2, 0, 1, [0], [0], [[]]⟩

/-- Witness for C7: the missing direction at an empty page list, and the
all-found direction at a complete concrete page list. -/
theorem c7_witness :
    (buildFromPages []).1 =
        .error (.vorbisException "Couldn't find Vorbis headers") ∧
      (buildFromPages [idPageG, cmtPageG, lastPageG]).1 ≠
        .error (.vorbisException "Couldn't find Vorbis headers") :=
  ⟨c7_missing_header_iff.1 [] (Or.inl (by decide)),
   c7_missing_header_iff.2.1 [idPageG, cmtPageG, lastPageG] (by decide)
     (by decide) (by decide)⟩

/-! ### Bitrate clamp and cascade (claim C4) -/

/-- **C4.** Each decoded bitrate field that is negative is clamped to 0
(a nonnegative field is kept); on the clamped values the estimate
follows the claimed precedence — nominal 0 gives the floor average of
max and min (integer division of the nonnegative clamped values is
exactly the floor of the Nat average), else a nonzero max below nominal
gives max, else a min above nominal gives min, else nominal.  The four
quoted instances hold, and a concrete identification payload decodes to
the expected raw fields byte-for-byte. -/
theorem c4_bitrate_cascade :
    (∀ m n mn : Int,
        (m < 0 → clamp0 m = 0) ∧ (0 ≤ m → clamp0 m = m) ∧
          (n < 0 → clamp0 n = 0) ∧ (0 ≤ n → clamp0 n = n) ∧
          (mn < 0 → clamp0 mn = 0) ∧ (0 ≤ mn → clamp0 mn = mn)) ∧
    (∀ M N Mn : Int,
        (N = 0 → bitrateEstimate M N Mn = (M + Mn) / 2) ∧
          (N ≠ 0 → M ≠ 0 → M < N → bitrateEstimate M N Mn = M) ∧
          (N ≠ 0 → (M = 0 ∨ ¬M < N) → N < Mn →
            bitrateEstimate M N Mn = Mn) ∧
          (N ≠ 0 → (M = 0 ∨ ¬M < N) → ¬N < Mn →
            bitrateEstimate M N Mn = N)) ∧
    (∀ a b : Nat, ((a : Int) + (b : Int)) / 2 = (((a + b) / 2 : Nat) : Int)) ∧
    bitrateEstimate 128000 0 64000 = 96000 ∧
    (∀ mn : Int, bitrateEstimate 64000 96000 mn = 64000) ∧
    bitrateEstimate 0 64000 96000 = 96000 ∧
    bitrateEstimate 0 96000 0 = 96000 ∧
    decodeIdHeader (idPayload 44100) = .ok (2, 44100, 128000, 96000, 64000) := by
  refine ⟨?_, ?_, ?_, by decide, ?_, by decide, by decide, by decide⟩
  · intro m n mn
    refine ⟨fun h => ?_, fun h => ?_, fun h => ?_, fun h => ?_,
      fun h => ?_, fun h => ?_⟩ <;> simp [clamp0] <;> omega
  · intro M N Mn
    refine ⟨fun hN => ?_, fun hN hM hMN => ?_, fun hN hM hMn => ?_,
      fun hN hM hMn => ?_⟩
    · rw [bitrateEstimate, if_pos hN]
    · rw [bitrateEstimate, if_neg hN, if_pos ⟨hM, hMN⟩]
    · have hcond : ¬(M ≠ 0 ∧ M < N) := by
        rcases hM with h0 | hlt
        · exact fun hc => hc.1 h0
        · exact fun hc => hlt hc.2
      rw [bitrateEstimate, if_neg hN, if_neg hcond, if_pos hMn]
    · have hcond : ¬(M ≠ 0 ∧ M < N) := by
        rcases hM with h0 | hlt
        · exact fun hc => hc.1 h0
        · exact fun hc => hlt hc.2
      rw [bitrateEstimate, if_neg hN, if_neg hcond, if_neg hMn]
  · intro a b
    omega
  · intro mn
    rw [bitrateEstimate]
    norm_num

/-- Witness for C4: every clamp case and every cascade branch applied at
concrete values. -/
theorem c4_witness :
    clamp0 (-1) = 0 ∧ clamp0 5 = 5 ∧ clamp0 (-3) = 0 ∧ clamp0 7 = 7 ∧
      clamp0 (-2) = 0 ∧ clamp0 9 = 9 ∧
      bitrateEstimate 128000 0 64000 = (128000 + 64000) / 2 ∧
      bitrateEstimate 64000 96000 0 = 64000 ∧
      bitrateEstimate 0 64000 96000 = 96000 ∧
      bitrateEstimate 0 96000 0 = 96000 := by
  refine ⟨?_, ?_, ?_, ?_, ?_, ?_, ?_, ?_, ?_, ?_⟩
  · exact (c4_bitrate_cascade.1 (-1) 0 0).1 (by decide)
  · exact (c4_bitrate_cascade.1 5 0 0).2.1 (by decide)
  · exact (c4_bitrate_cascade.1 0 (-3) 0).2.2.1 (by decide)
  · exact (c4_bitrate_cascade.1 0 7 0).2.2.2.1 (by decide)
  · exact (c4_bitrate_cascade.1 0 0 (-2)).2.2.2.2.1 (by decide)
  · exact (c4_bitrate_cascade.1 0 0 9).2.2.2.2.2 (by decide)
  · exact (c4_bitrate_cascade.2.1 128000 0 64000).1 rfl
  · exact (c4_bitrate_cascade.2.1 64000 96000 0).2.1 (by decide) (by decide)
      (by decide)
  · exact (c4_bitrate_cascade.2.1 0 64000 96000).2.2.1 (by decide)
      (Or.inl rfl) (by decide)
  · exact (c4_bitrate_cascade.2.1 0 96000 0).2.2.2 (by decide) (Or.inl rfl)
      (by decide)

/-! ### Comment-header malformations (claim C3) -/

/-- A comment-header payload declaring one entry of length 100 while
only 3 payload bytes (`A=B`) remain after the length field. -/
def overrunCmtBuf : List Nat :=
  cmtMagic ++ le4 0 ++ le4 1 ++ le4 100 ++ [65, 61, 66]

/-- The comment page carrying `overrunCmtBuf`. -/
def cmtPageO : Page := ⟨56, 0, 0, 0, 1, 1, 0, 1, [22], [22], [overrunCmtBuf]⟩

/-- **C3 (counterexample).** An entry length that runs past the end of
the page payload does not raise: the slice is silently truncated, the
truncated entry `A=B` is decoded and inserted, and the loop — and the
whole constructor — finish without any error. -/
theorem c3_counterexample :
    u32le ((overrunCmtBuf.drop 15).take 4) = 100 ∧
      15 + 4 + 100 > overrunCmtBuf.length ∧
      commentLoop overrunCmtBuf 1 15 [] = ([([65], [66])], none) ∧
      (buildFromPages [idPageG, cmtPageO, lastPageG]).1.isOk = true ∧
      (buildFromPages [idPageG, cmtPageO, lastPageG]).2 = [([65], [66])] := by
  decide

theorem find?_append_isSome {p : List Nat × List Nat → Bool} {t : CTable}
    (u : CTable) (h : (t.find? p).isSome = true) :
    ((t ++ u).find? p).isSome = true := by
  induction t with
  | nil => simp [List.find?] at h
  | cons e rest ih =>
    by_cases he : p e = true
    · rw [List.cons_append, List.find?_cons_of_pos _ he]
      rfl
    · rw [List.cons_append, List.find?_cons_of_neg _ he]
      rw [List.find?_cons_of_neg _ he] at h
      exact ih h

theorem find?_map_keep_keys (k' v k : List Nat) :
    ∀ t : CTable,
      ((t.map (fun e => if e.1 == k' then (k', v) else e)).find?
          (fun e => e.1 == k)).isSome =
        (t.find? (fun e => e.1 == k)).isSome := by
  intro t
  induction t with
  | nil => rfl
  | cons e rest ih =>
    have hkey : ((if e.1 == k' then (k', v) else e) :
        List Nat × List Nat).1 = e.1 := by
      by_cases he : (e.1 == k') = true
      · rw [if_pos he]
        exact (beq_iff_eq.mp he).symm
      · rw [if_neg he]
    have hpe : (((if e.1 == k' then (k', v) else e) :
        List Nat × List Nat).1 == k) = (e.1 == k) := by rw [hkey]
    simp only [List.map_cons, List.find?_cons, hpe]
    cases hb : (e.1 == k)
    · simpa [hb] using ih
    · simp [hb]

/-- Assigning any key into the comment table keeps every present key
present. -/
theorem ctFind_ctInsert_isSome (t : CTable) (k k' v : List Nat)
    (h : (ctFind t k).isSome = true) :
    (ctFind (ctInsert t k' v) k).isSome = true := by
  have hsome : (t.find? (fun e => e.1 == k)).isSome = true := by
    cases hf : t.find? (fun e => e.1 == k) with
    | none => simp [ctFind, hf] at h
    | some e => rfl
  unfold ctInsert
  by_cases hmem : t.any (fun e => e.1 == k') = true
  · rw [if_pos hmem]
    have h2 : ((t.map (fun e => if e.1 == k' then (k', v) else e)).find?
        (fun e => e.1 == k)).isSome = true := by
      rw [find?_map_keep_keys]
      exact hsome
    cases hf : (t.map (fun e => if e.1 == k' then (k', v) else e)).find?
        (fun e => e.1 == k) with
    | none => rw [hf] at h2; exact absurd h2 (by simp)
    | some e => unfold ctFind; rw [hf]; rfl
  · rw [if_neg hmem]
    have h2 := find?_append_isSome [(k', v)] hsome
    cases hf : ((t ++ [(k', v)]).find? (fun e => e.1 == k)) with
    | none => rw [hf] at h2; exact absurd h2 (by simp)
    | some e => unfold ctFind; rw [hf]; rfl

/-- **C3 (amended).** During comment decode: an entry whose 4-byte
length field overruns the payload aborts with `struct.error`; an entry
with no `=` byte aborts with `ValueError`; invalid UTF-8 on either side
aborts with `UnicodeDecodeError` — in each case the remaining entries
are not decoded and the table keeps exactly the entries inserted so far.
An entry whose declared byte length runs past the payload end is NOT
itself an error: the slice is truncated and, if the truncated bytes
split and decode, the loop continues normally.  Keys inserted before a
failure remain present (partial population). -/
theorem c3_amended_comment_malformations :
    (∀ (cb : List Nat) (count off : Nat) (t : CTable),
        ((cb.drop off).take 4).length ≠ 4 →
        commentLoop cb (count + 1) off t = (t, some .structError)) ∧
    (∀ (cb : List Nat) (count off : Nat) (t : CTable),
        ((cb.drop off).take 4).length = 4 →
        splitEq ((cb.drop (off + 4)).take (u32le ((cb.drop off).take 4))) =
          none →
        commentLoop cb (count + 1) off t = (t, some .valueError)) ∧
    (∀ (cb : List Nat) (count off : Nat) (t : CTable) (nm v : List Nat),
        ((cb.drop off).take 4).length = 4 →
        splitEq ((cb.drop (off + 4)).take (u32le ((cb.drop off).take 4))) =
          some (nm, v) →
        (utf8Valid nm && utf8Valid v) = false →
        commentLoop cb (count + 1) off t = (t, some .unicodeDecodeError)) ∧
    (∀ (cb : List Nat) (count off : Nat) (t : CTable) (nm v : List Nat),
        ((cb.drop off).take 4).length = 4 →
        splitEq ((cb.drop (off + 4)).take (u32le ((cb.drop off).take 4))) =
          some (nm, v) →
        (utf8Valid nm && utf8Valid v) = true →
        commentLoop cb (count + 1) off t =
          commentLoop cb count (off + 4 + u32le ((cb.drop off).take 4))
            (ctInsert t nm v)) ∧
    (∀ (cb : List Nat) (count off : Nat) (t : CTable) (k : List Nat),
        (ctFind t k).isSome = true →
        (ctFind ((commentLoop cb count off t).1) k).isSome = true) := by
  refine ⟨?_, ?_, ?_, ?_, ?_⟩
  · intro cb count off t h
    simp only [commentLoop]
    rw [if_neg h]
  · intro cb count off t h1 h2
    simp only [commentLoop]
    rw [if_pos h1, h2]
  · intro cb count off t nm v h1 h2 h3
    simp only [commentLoop]
    rw [if_pos h1, h2]
    simp [h3]
  · intro cb count off t nm v h1 h2 h3
    simp only [commentLoop]
    rw [if_pos h1, h2]
    simp [h3]
  · intro cb count
    induction count generalizing cb with
    | zero => intro off t k h; simpa [commentLoop] using h
    | succ n ih =>
      intro off t k h
      simp only [commentLoop]
      split
      · split
        · exact h
        · split
          · exact ih cb _ _ _ (ctFind_ctInsert_isSome _ _ _ _ h)
          · exact h
      · exact h

/-- Witness for C3 (amended): each malformation branch and the
key-preservation fact at concrete inputs. -/
theorem c3_witness :
    commentLoop [] 1 0 [] = ([], some .structError) ∧
      commentLoop [1, 0, 0, 0, 65] 1 0 [] = ([], some .valueError) ∧
      commentLoop [2, 0, 0, 0, 255, 61] 1 0 [] =
        ([], some .unicodeDecodeError) ∧
      commentLoop [3, 0, 0, 0, 65, 61, 66] 1 0 [] =
        commentLoop [3, 0, 0, 0, 65, 61, 66] 0
          (0 + 4 + u32le (([3, 0, 0, 0, 65, 61, 66].drop 0).take 4))
          (ctInsert [] [65] [66]) ∧
      (ctFind ((commentLoop [] 0 0 [([65], [66])]).1) [65]).isSome = true := by
  refine ⟨?_, ?_, ?_, ?_, ?_⟩
  · exact c3_amended_comment_malformations.1 [] 0 0 [] (by decide)
  · exact c3_amended_comment_malformations.2.1 [1, 0, 0, 0, 65] 0 0 []
      (by decide) (by decide)
  · exact c3_amended_comment_malformations.2.2.1 [2, 0, 0, 0, 255, 61] 0 0 []
      [255] [] (by decide) (by decide) (by decide)
  · exact c3_amended_comment_malformations.2.2.2.1 [3, 0, 0, 0, 65, 61, 66]
      0 0 [] [65] [66] (by decide) (by decide) (by decide)
  · exact c3_amended_comment_malformations.2.2.2.2 [] 0 0 [([65], [66])] [65]
      (by decide)

/-! ### Header locator (claim C1) -/

/-- A page whose whole payload is the identification marker, serial 1. -/
def c1Page1 : Page := ⟨0, 0, 0, 0, 1, 0, 0, 1, [7], [7], [idMagic]⟩

/-- A second identification-marker page, serial 2. -/
def c1Page2 : Page := ⟨0, 0, 0, 0, 2, 1, 0, 1, [7], [7], [idMagic]⟩

/-- **C1 (counterexample).** With two identification-header pages in
scan order, the first matching page is `c1Page1`, but the locator
returns `c1Page2` — the most recent match, not the first. -/
theorem c1_counterexample :
    startsWith idMagic c1Page1.buffer = true ∧
      ([c1Page1, c1Page2] : List Page).find?
          (fun p => startsWith idMagic p.buffer) = some c1Page1 ∧
      (locate [c1Page1, c1Page2]).1 = some c1Page2 ∧
      c1Page2 ≠ c1Page1 := by
  decide

theorem locate_append_singleton (pages : List Page) (p : Page) :
    locate (pages ++ [p]) = locateStep (locate pages) p := by
  simp [locate, List.foldl_append]

theorem locate_fst (pages : List Page) :
    (locate pages).1 =
      (pages.filter (fun q => startsWith idMagic q.buffer)).getLast? := by
  induction pages using List.reverseRecOn with
  | nil => rfl
  | append_singleton l p ih =>
    rw [locate_append_singleton, List.filter_append]
    by_cases hp : startsWith idMagic p.buffer = true
    · simp [locateStep, hp]
    · have hp' : startsWith idMagic p.buffer = false := by simpa using hp
      simp [locateStep, hp', ih]

theorem locate_snd (pages : List Page) :
    (locate pages).2.1 =
      (pages.filter (fun q => !startsWith idMagic q.buffer &&
          startsWith cmtMagic q.buffer)).getLast? := by
  induction pages using List.reverseRecOn with
  | nil => rfl
  | append_singleton l p ih =>
    rw [locate_append_singleton, List.filter_append]
    by_cases hp : (!startsWith idMagic p.buffer &&
        startsWith cmtMagic p.buffer) = true
    · simp [locateStep, hp]
    · have hp' : (!startsWith idMagic p.buffer &&
          startsWith cmtMagic p.buffer) = false := by simpa using hp
      simp [locateStep, hp', ih]

/-- Does position `i` of the page list qualify as terminal-page update:
the page at `i` is flagged "last" and its serial equals the serial of
the most recent identification page at or before `i`? -/
def qualAt (pages : List Page) (i : Nat) : Bool :=
  match pages[i]?, ((pages.take (i + 1)).filter
      (fun q => startsWith idMagic q.buffer)).getLast? with
  | some q, some ip => q.serial == ip.serial && q.isLast
  | _, _ => false

theorem getLast?_mem_own {α : Type} {L : List α} {a : α}
    (h : L.getLast? = some a) : a ∈ L := by
  obtain ⟨hh, heq⟩ := List.mem_getLast?_eq_getLast (Option.mem_def.mpr h)
  rw [heq]
  exact List.getLast_mem hh

theorem locate_terminal (pages : List Page) :
    (locate pages).2.2 =
      (((List.range pages.length).filter (qualAt pages)).getLast?).bind
        (fun i => pages[i]?) := by
  induction pages using List.reverseRecOn with
  | nil => rfl
  | append_singleton l p ih =>
    have hstable : ∀ i ∈ List.range l.length,
        qualAt (l ++ [p]) i = qualAt l i := by
      intro i hi
      have hilt : i < l.length := List.mem_range.mp hi
      unfold qualAt
      rw [List.getElem?_append_left hilt,
        List.take_append_of_le_length (by omega)]
    have hbind : ∀ L : List Nat, (∀ i ∈ L, i < l.length) →
        L.getLast?.bind (fun i => (l ++ [p])[i]?) =
          L.getLast?.bind (fun i => l[i]?) := by
      intro L hL
      cases hL' : L.getLast? with
      | none => rfl
      | some i =>
        have hlt := hL i (getLast?_mem_own hL')
        simp [List.getElem?_append_left hlt]
    have hmemlt : ∀ i ∈ (List.range l.length).filter (qualAt l),
        i < l.length := by
      intro i hi
      exact List.mem_range.mp (List.mem_filter.mp hi).1
    have hnew : qualAt (l ++ [p]) l.length =
        (match ((l ++ [p]).filter
            (fun q => startsWith idMagic q.buffer)).getLast? with
         | some ip => p.serial == ip.serial && p.isLast
         | none => false) := by
      unfold qualAt
      rw [show (l ++ [p])[l.length]? = some p by simp,
        List.take_of_length_le (by simp)]
      cases ((l ++ [p]).filter (fun q => startsWith idMagic q.buffer)).getLast? <;> rfl
    have hidp : (locateStep (locate l) p).1 =
        ((l ++ [p]).filter (fun q => startsWith idMagic q.buffer)).getLast? := by
      rw [← locate_append_singleton]
      exact locate_fst _
    rw [locate_append_singleton]
    rw [show (l ++ [p]).length = l.length + 1 by simp]
    rw [List.range_succ, List.filter_append, List.filter_congr hstable]
    have hstep : (locateStep (locate l) p).2.2 =
        match (locateStep (locate l) p).1 with
        | some ip =>
            if p.serial == ip.serial && p.isLast then some p
            else (locate l).2.2
        | none => (locate l).2.2 := rfl
    rw [hstep, hidp]
    cases hip : ((l ++ [p]).filter
        (fun q => startsWith idMagic q.buffer)).getLast? with
    | none =>
      have hq : qualAt (l ++ [p]) l.length = false := by
        rw [hnew, hip]
      rw [show List.filter (qualAt (l ++ [p])) [l.length] = [] by
        simp [hq]]
      rw [List.append_nil, hbind _ hmemlt]
      exact ih
    | some ip =>
      cases hcond : (p.serial == ip.serial && p.isLast) with
      | false =>
        have hq : qualAt (l ++ [p]) l.length = false := by
          rw [hnew, hip]
          exact hcond
        rw [show List.filter (qualAt (l ++ [p])) [l.length] = [] by
          simp [hq]]
        rw [List.append_nil, hbind _ hmemlt]
        simp only [hcond, Bool.false_eq_true, if_false]
        exact ih
      | true =>
        have hq : qualAt (l ++ [p]) l.length = true := by
          rw [hnew, hip]
          exact hcond
        rw [show List.filter (qualAt (l ++ [p])) [l.length] = [l.length] by
          simp [hq]]
        rw [List.getLast?_concat]
        simp [hcond]

/-- **C1 (amended).** Scanning once in order, the locator tracks the
most recent — not the first — page whose payload begins with byte 1 +
"vorbis" (identification page), the most recent page whose payload
begins with byte 3 + "vorbis" (comment page), and, as terminal page, the
most recent page that is flagged "last" and whose serial number equals
the serial of the identification page most recently seen at that point
of the scan. -/
theorem c1_amended_locator :
    (∀ pages : List Page, (locate pages).1 =
        (pages.filter (fun q => startsWith idMagic q.buffer)).getLast?) ∧
      (∀ pages : List Page, (locate pages).2.1 =
        (pages.filter (fun q => !startsWith idMagic q.buffer &&
            startsWith cmtMagic q.buffer)).getLast?) ∧
      (∀ pages : List Page, (locate pages).2.2 =
        (((List.range pages.length).filter (qualAt pages)).getLast?).bind
          (fun i => pages[i]?)) :=
  ⟨locate_fst, locate_snd, locate_terminal⟩
